import Mathlib

/-!
Verification development for the `@art-share/crypto` password-hashing core.

The definitions below are a shallow embedding of the repository's source:
`src/constants.ts` (presets and limits), `dist/utils.js` (encoding utilities,
parameter validation, estimation, timing-safe comparison) and `src/core.ts`
(hashing engine and authentication protocol).  JavaScript numbers are modelled
as `Int` (all arithmetic performed by the code on its intended domain is exact
in binary floating point, see the comments at the individual definitions);
`Uint8Array` cells are `Fin 256`; thrown exceptions are `Except` errors; the
external scrypt primitive and the random salt generator are explicit
parameters (`scryptFn` / `generatedSalt`), since the source treats them as
black boxes.
-/

/-- A `Uint8Array` cell: a natural number below 256. -/
abbrev Byte := Fin 256

deriving instance DecidableEq for Except

/-- `ScryptParams` from `src/types.ts`: the four cost/shape fields, all JS
numbers (modelled as `Int`). -/
structure ScryptParams where
  N : Int
  r : Int
  p : Int
  dkLen : Int
deriving DecidableEq

/-- `SecurityLevel` from `src/types.ts`. -/
inductive SecurityLevel
  | development
  | standard
  | high
  | paranoid
deriving DecidableEq

/-- `SCRYPT_PRESETS` from `src/constants.ts`. -/
def SCRYPT_PRESETS : SecurityLevel → ScryptParams
  | .development => ⟨2 ^ 14, 8, 1, 32⟩
  | .standard => ⟨2 ^ 16, 8, 1, 32⟩
  | .high => ⟨2 ^ 18, 8, 1, 32⟩
  | .paranoid => ⟨2 ^ 20, 8, 1, 32⟩

/-- `DEFAULT_SCRYPT_PARAMS` from `src/constants.ts`. -/
def DEFAULT_SCRYPT_PARAMS : ScryptParams := SCRYPT_PRESETS .standard

/-- The `SCRYPT_LIMITS` record from `src/constants.ts`. -/
structure ScryptLimits where
  MIN_N : Int
  MAX_N : Int
  MIN_R : Int
  MAX_R : Int
  MIN_P : Int
  MAX_P : Int
  MIN_DKLEN : Int
  MAX_DKLEN : Int

/-- `SCRYPT_LIMITS` from `src/constants.ts`. -/
def SCRYPT_LIMITS : ScryptLimits :=
  { MIN_N := 2 ^ 10, MAX_N := 2 ^ 24
    MIN_R := 1, MAX_R := 64
    MIN_P := 1, MAX_P := 64
    MIN_DKLEN := 16, MAX_DKLEN := 128 }

/-- The six distinct errors thrown by `validateScryptParams` in
`dist/utils.js`, one per check, in source order.  The messages in the source
are: "N must be a power of 2", "N must be between 1024 and 16777216",
"r must be between 1 and 64", "p must be between 1 and 64",
"dkLen must be between 16 and 128", and the memory-limit message. -/
inductive ValidationError
  | nPow2
  | nRange
  | rRange
  | pRange
  | dkLenRange
  | memoryLimit
deriving DecidableEq

/-- The JS expression `(a & b)` compared against 0.  JS bitwise AND converts
both operands with ToInt32, i.e. it operates on the low 32 bits of the
operands; the sign reinterpretation of the result is irrelevant for a
comparison with 0, so we compute the unsigned 32-bit pattern AND.  For
operands in `[0, 2^31)` this agrees with the exact integer bitwise AND. -/
def jsAnd32 (a b : Int) : Nat :=
  (a % (2 ^ 32 : Int)).toNat &&& (b % (2 ^ 32 : Int)).toNat

/-- `validateScryptParams` from `dist/utils.js`: the six checks in source
order, first failure reported.  The source's local constants
`memoryRequired = 128 * N * r` and `maxMemory = 1024 * 1024 * 1024` are
substituted into the final comparison.  For parameters passing the range
checks all products are far below 2^53, so JS float multiplication is
exact and the `Int` model is faithful. -/
def validateScryptParams (params : ScryptParams) : Except ValidationError Unit :=
  if params.N ≤ 0 ∨ jsAnd32 params.N (params.N - 1) ≠ 0 then
    .error .nPow2
  else if params.N < SCRYPT_LIMITS.MIN_N ∨ params.N > SCRYPT_LIMITS.MAX_N then
    .error .nRange
  else if params.r < SCRYPT_LIMITS.MIN_R ∨ params.r > SCRYPT_LIMITS.MAX_R then
    .error .rRange
  else if params.p < SCRYPT_LIMITS.MIN_P ∨ params.p > SCRYPT_LIMITS.MAX_P then
    .error .pRange
  else if params.dkLen < SCRYPT_LIMITS.MIN_DKLEN ∨ params.dkLen > SCRYPT_LIMITS.MAX_DKLEN then
    .error .dkLenRange
  else if 128 * params.N * params.r > 1024 * 1024 * 1024 then
    .error .memoryLimit
  else
    .ok ()

/-- `estimateHashingTime` from `dist/utils.js`.  For parameters in the ranges
the validator accepts, every intermediate JS float operation is exact (all
values are dyadic rationals with numerators far below 2^53), so the rational
model is faithful there; `Math.round` is `round` (half away from zero rounds
toward positive infinity in both). -/
def estimateHashingTime (params : ScryptParams) : Int :=
  let baseTime : ℚ := 200
  let baseN : ℚ := 2 ^ 16
  let timeMs : ℚ := baseTime * ((params.N : ℚ) / baseN) * ((params.r : ℚ) / 8) * (params.p : ℚ)
  round timeMs

/-- Modelled from the spec: the §4.4 estimation formula as the spec words it,
"`200 * (N / 2^16) * (r / 8) * p`, rounded to the nearest integer". -/
def estimateHashingTimeFormula (params : ScryptParams) : Int :=
  round ((200 : ℚ) * ((params.N : ℚ) / 2 ^ 16) * ((params.r : ℚ) / 8) * (params.p : ℚ))

/-- `timingSafeEqual` from `dist/utils.js`: length mismatch returns false,
otherwise the accumulated bitwise OR of XOR differences of the code units is
compared with 0. -/
def timingSafeEqual (a b : String) : Bool :=
  if a.length ≠ b.length then
    false
  else
    let result :=
      (a.data.zip b.data).foldl (fun result cd => result ||| (cd.1.toNat ^^^ cd.2.toNat)) 0
    result == 0

/-- One byte rendered by the arrow function in `bytesToHex`
(`b.toString(16).padStart(2, '0')`): lowercase hex digits of the byte,
left-padded with `'0'` to two characters. -/
def byteToHex (b : Byte) : String :=
  let s :=
    if b.val < 16 then String.mk [Nat.digitChar b.val]
    else String.mk [Nat.digitChar (b.val / 16), Nat.digitChar (b.val % 16)]
  if s.length < 2 then "0" ++ s else s

/-- `bytesToHex` from `dist/utils.js`. -/
def bytesToHex (bytes : List Byte) : String :=
  String.join (bytes.map byteToHex)

/-- ECMAScript StrWhiteSpaceChar as far as `parseInt` skips it (the common
code points; the remaining exotic Unicode space separators are omitted, which
is irrelevant to every statement below). -/
def jsIsStrWhiteSpace (c : Char) : Bool :=
  c == ' ' || c == '\t' || c == '\n' || c == '\x0d' || c == '\x0b' || c == '\x0c' ||
    c == ' ' || c == '﻿'

/-- Radix-16 digit test of `parseInt`. -/
def isRadix16Digit (c : Char) : Bool :=
  ('0' ≤ c && c ≤ '9') || ('a' ≤ c && c ≤ 'f') || ('A' ≤ c && c ≤ 'F')

/-- Value of a radix-16 digit. -/
def radix16DigitVal (c : Char) : Nat :=
  if '0' ≤ c && c ≤ '9' then c.toNat - '0'.toNat
  else if 'a' ≤ c && c ≤ 'f' then c.toNat - 'a'.toNat + 10
  else c.toNat - 'A'.toNat + 10

/-- The ECMAScript builtin `parseInt(s, 16)` on a list of code points:
skip leading whitespace, read an optional sign, strip an optional `0x`/`0X`
prefix, then take the longest prefix of radix-16 digits; an empty digit
string gives NaN (`none`). -/
def jsParseIntHex (s : List Char) : Option Int :=
  let s1 := s.dropWhile jsIsStrWhiteSpace
  let signAndRest : Int × List Char :=
    match s1 with
    | '-' :: rest => (-1, rest)
    | '+' :: rest => (1, rest)
    | _ => (1, s1)
  let s2 : List Char :=
    match signAndRest.2 with
    | '0' :: 'x' :: rest => rest
    | '0' :: 'X' :: rest => rest
    | _ => signAndRest.2
  let digits := s2.takeWhile isRadix16Digit
  if digits.isEmpty then none
  else
    some (signAndRest.1 *
      ((digits.foldl (fun acc c => 16 * acc + radix16DigitVal c) 0 : Nat) : Int))

/-- Storing a JS number into a `Uint8Array` cell (ToUint8): NaN becomes 0,
an integer is reduced modulo 2^8. -/
def toUint8 (v : Option Int) : Byte :=
  match v with
  | none => ⟨0, by omega⟩
  | some n => ⟨(n % 256).toNat, by omega⟩

/-- The single error thrown by `hexToBytes` in `dist/utils.js`
("Invalid hex string: odd length"). -/
inductive EncodingError
  | oddLength
deriving DecidableEq

/-- The loop of `hexToBytes`: `bytes[i / 2] = parseInt(hex.slice(i, i + 2), 16)`
for `i = 0, 2, 4, …`; on an even-length string every slice has exactly two
characters. -/
def hexPairsToBytes : List Char → List Byte
  | c1 :: c2 :: rest => toUint8 (jsParseIntHex [c1, c2]) :: hexPairsToBytes rest
  | _ => []

/-- `hexToBytes` from `dist/utils.js`. -/
def hexToBytes (hex : String) : Except EncodingError (List Byte) :=
  if hex.length % 2 ≠ 0 then .error .oddLength
  else .ok (hexPairsToBytes hex.data)

/-- The external scrypt primitive of `@noble/hashes` as the boundary contract
describes it: a deterministic function of the password, the salt bytes and
the parameters. -/
abbrev DeriveFn := String → List Byte → ScryptParams → List Byte

/-- `HashResult` from `src/types.ts`. -/
structure HashResult where
  hash : String
  salt : String
  params : ScryptParams
  timestamp : Int
deriving DecidableEq

/-- An error escaping the hashing engine: either a parameter-validation error
or a hex-encoding error. -/
inductive CryptoError
  | validation (e : ValidationError)
  | encoding (e : EncodingError)
deriving DecidableEq

/-- `hashPasswordSync` from `src/core.ts`.  `scryptFn` is the external
`scrypt` primitive, `generatedSalt` the value `generateSalt()` would return,
`now` the value of `Date.now()`.  The salt defaulting mirrors
`salt || generateSalt()`: JS `||` takes the right operand on any falsy left
operand, so an absent salt *and* the empty-string salt both select the fresh
salt.  The `finally { clearString(password) }` block is semantically a no-op
(`clearString` only reassigns its local parameter) and is omitted. -/
def hashPasswordSync (scryptFn : DeriveFn) (generatedSalt : String) (now : Int)
    (password : String) (salt : Option String) (params : ScryptParams) :
    Except CryptoError HashResult :=
  match validateScryptParams params with
  | .error e => .error (.validation e)
  | .ok _ =>
    let saltHex :=
      match salt with
      | some s => if s = "" then generatedSalt else s
      | none => generatedSalt
    match hexToBytes saltHex with
    | .error e => .error (.encoding e)
    | .ok saltBytes =>
      let hashBytes := scryptFn password saltBytes params
      let hash := bytesToHex hashBytes
      .ok { hash := hash, salt := saltHex, params := params, timestamp := now }

/-- `hashPassword` from `src/core.ts` (the asynchronous form; the resolved
promise value is the returned `Except`).  `scryptAsyncFn` is the external
`scryptAsync` primitive. -/
def hashPassword (scryptAsyncFn : DeriveFn) (generatedSalt : String) (now : Int)
    (password : String) (salt : Option String) (params : ScryptParams) :
    Except CryptoError HashResult :=
  match validateScryptParams params with
  | .error e => .error (.validation e)
  | .ok _ =>
    let saltHex :=
      match salt with
      | some s => if s = "" then generatedSalt else s
      | none => generatedSalt
    match hexToBytes saltHex with
    | .error e => .error (.encoding e)
    | .ok saltBytes =>
      let hashBytes := scryptAsyncFn password saltBytes params
      let hash := bytesToHex hashBytes
      .ok { hash := hash, salt := saltHex, params := params, timestamp := now }

/-- `verifyPassword` from `src/core.ts`: recompute via `hashPassword` with
the given salt and params, propagate any error, and compare the fresh hash
with `expectedHash` with the native `===` string equality (the line below the
source comment "Use timing-safe comparison"). -/
def verifyPassword (scryptAsyncFn : DeriveFn) (generatedSalt : String) (now : Int)
    (password expectedHash salt : String) (params : ScryptParams) :
    Except CryptoError Bool :=
  match hashPassword scryptAsyncFn generatedSalt now password (some salt) params with
  | .error e => .error e
  | .ok result => .ok (result.hash == expectedHash)

/-- Modelled from the spec: `verify` as §4.5 words it — identical
recomputation, but the final comparison performed by the timing-safe
comparator of §4.3 (`timingSafeEqual`) instead of native equality. -/
def verifyPasswordTimingSafe (scryptAsyncFn : DeriveFn) (generatedSalt : String) (now : Int)
    (password expectedHash salt : String) (params : ScryptParams) :
    Except CryptoError Bool :=
  match hashPassword scryptAsyncFn generatedSalt now password (some salt) params with
  | .error e => .error e
  | .ok result => .ok (timingSafeEqual result.hash expectedHash)

/-- `getScryptParams` from `src/core.ts` (the JS spread produces a fresh
copy; values are pure here, so it is the identity on the table entry). -/
def getScryptParams (level : SecurityLevel) : ScryptParams :=
  SCRYPT_PRESETS level

/-- `clientHashPassword` from `src/core.ts`: the `hash` field of
`hashPassword`. -/
def clientHashPassword (scryptAsyncFn : DeriveFn) (generatedSalt : String) (now : Int)
    (password salt : String) (params : ScryptParams) : Except CryptoError String :=
  (hashPassword scryptAsyncFn generatedSalt now password (some salt) params).map (·.hash)

/-- `serverHashPassword` from `src/core.ts`: the client hash fed to
`hashPassword` as the password, with the server salt and params. -/
def serverHashPassword (scryptAsyncFn : DeriveFn) (generatedSalt : String) (now : Int)
    (clientHash serverSalt : String) (params : ScryptParams) : Except CryptoError String :=
  (hashPassword scryptAsyncFn generatedSalt now clientHash (some serverSalt) params).map (·.hash)

/-- A concrete stand-in for the external primitive, used to instantiate
universally quantified statements at closed inputs. -/
def trivialDerive : DeriveFn := fun _ _ _ => []
theorem nat_lor_eq_zero_iff {a b : ℕ} : a ||| b = 0 ↔ a = 0 ∧ b = 0 := by
  constructor
  · intro h
    constructor <;>
    · apply Nat.eq_of_testBit_eq
      intro i
      have := congrArg (fun x => Nat.testBit x i) h
      simp only [Nat.testBit_or, Nat.zero_testBit] at this ⊢
      cases h1 : a.testBit i <;> cases h2 : b.testBit i <;> simp_all
  · rintro ⟨rfl, rfl⟩
    simp

theorem land_pred_eq_zero_iff {n : ℕ} (hn : n ≠ 0) :
    n &&& (n - 1) = 0 ↔ ∃ k, n = 2 ^ k := by
  constructor
  · intro h
    obtain ⟨i, hi, hmsb⟩ := Nat.exists_most_significant_bit hn
    refine ⟨i, ?_⟩
    have hge : 2 ^ i ≤ n := Nat.testBit_implies_ge hi
    have hlt : n < 2 ^ (i + 1) :=
      Nat.lt_pow_two_of_testBit n (fun j hj => hmsb j (by omega))
    have hpow : 2 ^ (i + 1) = 2 * 2 ^ i := by ring
    by_contra hne
    have hgt : 2 ^ i < n := lt_of_le_of_ne hge (fun he => hne he.symm)
    have hdiv : (n - 1) / 2 ^ i = 1 := by
      apply Nat.div_eq_of_lt_le <;> omega
    have hbit : (n - 1).testBit i = true := by
      rw [Nat.testBit_to_div_mod, hdiv]
      decide
    have hland : (n &&& (n - 1)).testBit i = true := by
      rw [Nat.testBit_and, hi, hbit]
      rfl
    rw [h, Nat.zero_testBit] at hland
    exact Bool.false_ne_true hland
  · rintro ⟨k, rfl⟩
    apply Nat.eq_of_testBit_eq
    intro i
    rw [Nat.testBit_and, Nat.zero_testBit, Nat.testBit_two_pow, Nat.testBit_two_pow_sub_one]
    by_cases hk : k = i <;> simp [hk]

theorem jsAnd32_pow2_iff {N : Int} (h1 : 1 ≤ N) (h2 : N < 2 ^ 32) :
    jsAnd32 N (N - 1) = 0 ↔ ∃ k : ℕ, N = 2 ^ k := by
  unfold jsAnd32
  have e1 : N % (2 ^ 32 : Int) = N := Int.emod_eq_of_lt (by omega) (by norm_num; omega)
  have e2 : (N - 1) % (2 ^ 32 : Int) = N - 1 := Int.emod_eq_of_lt (by omega) (by norm_num; omega)
  rw [e1, e2]
  have hN : N = ((N.toNat : ℕ) : Int) := by omega
  have hN1 : (N - 1).toNat = N.toNat - 1 := by omega
  rw [hN1]
  have htrans : (N.toNat &&& (N.toNat - 1) = 0) ↔ ∃ k, N.toNat = 2 ^ k :=
    land_pred_eq_zero_iff (by omega)
  rw [htrans]
  constructor
  · rintro ⟨k, hk⟩
    exact ⟨k, by rw [hN, hk]; push_cast; ring⟩
  · rintro ⟨k, hk⟩
    refine ⟨k, ?_⟩
    have : ((N.toNat : ℕ) : Int) = ((2 ^ k : ℕ) : Int) := by rw [← hN, hk]; push_cast; ring
    exact_mod_cast this

theorem char_toNat_inj {a b : Char} (h : a.toNat = b.toNat) : a = b :=
  Char.ext (UInt32.toNat.inj h)

theorem tse_foldl_eq_zero_iff (l : List (Char × Char)) (acc : ℕ) :
    l.foldl (fun result cd => result ||| (cd.1.toNat ^^^ cd.2.toNat)) acc = 0 ↔
      acc = 0 ∧ ∀ cd ∈ l, cd.1 = cd.2 := by
  induction l generalizing acc with
  | nil => simp
  | cons x xs ih =>
    simp only [List.foldl_cons, ih, nat_lor_eq_zero_iff, List.mem_cons]
    constructor
    · rintro ⟨⟨ha, hx⟩, hrest⟩
      refine ⟨ha, fun cd hcd => ?_⟩
      rcases hcd with rfl | hcd
      · exact char_toNat_inj (Nat.xor_eq_zero.mp hx)
      · exact hrest cd hcd
    · rintro ⟨ha, hall⟩
      refine ⟨⟨ha, ?_⟩, fun cd hcd => hall cd (Or.inr hcd)⟩
      exact Nat.xor_eq_zero.mpr (congrArg Char.toNat (hall x (Or.inl rfl)))

theorem zip_forall_eq {l1 l2 : List Char} (hlen : l1.length = l2.length) :
    (∀ cd ∈ l1.zip l2, cd.1 = cd.2) ↔ l1 = l2 := by
  induction l1 generalizing l2 with
  | nil =>
    cases l2 with
    | nil => simp
    | cons y ys => simp at hlen
  | cons x xs ih =>
    cases l2 with
    | nil => simp at hlen
    | cons y ys =>
      simp only [List.zip_cons_cons, List.mem_cons, List.cons.injEq]
      constructor
      · intro h
        refine ⟨h (x, y) (Or.inl rfl), ?_⟩
        exact (ih (by simpa using hlen)).mp (fun cd hcd => h cd (Or.inr hcd))
      · rintro ⟨rfl, rfl⟩
        rintro cd (rfl | hcd)
        · rfl
        · exact (ih rfl).mpr rfl cd hcd

theorem string_length_eq_data_length (s : String) : s.length = s.data.length := rfl

theorem timingSafeEqual_eq_beq (a b : String) : timingSafeEqual a b = (a == b) := by
  unfold timingSafeEqual
  by_cases hlen : a.length = b.length
  · rw [if_neg (by simp [hlen])]
    rw [Bool.eq_iff_iff]
    simp only [beq_iff_eq]
    rw [tse_foldl_eq_zero_iff, String.ext_iff,
      ← zip_forall_eq (by rw [← string_length_eq_data_length, ← string_length_eq_data_length]; exact hlen)]
    simp
  · rw [if_pos hlen]
    symm
    rw [beq_eq_false_iff_ne]
    intro h
    exact hlen (by rw [h])

set_option maxRecDepth 10000 in
theorem byteToHex_data_length : ∀ b : Byte, (byteToHex b).data.length = 2 := by decide

set_option maxRecDepth 10000 in
theorem byteToHex_decode : ∀ b : Byte, hexPairsToBytes ((byteToHex b).data) = [b] := by decide

theorem hexPairsToBytes_byteToHex (b : Byte) (rest : List Char) :
    hexPairsToBytes ((byteToHex b).data ++ rest) = b :: hexPairsToBytes rest := by
  obtain ⟨c1, c2, hc⟩ := List.length_eq_two.mp (byteToHex_data_length b)
  have hdec := byteToHex_decode b
  rw [hc] at hdec ⊢
  have hhead : toUint8 (jsParseIntHex [c1, c2]) = b := by
    simpa [hexPairsToBytes] using hdec
  simp only [List.cons_append, List.nil_append, hexPairsToBytes, hhead]
  rfl

theorem bytesToHex_data_cons (b : Byte) (bs : List Byte) :
    (bytesToHex (b :: bs)).data = (byteToHex b).data ++ (bytesToHex bs).data := by
  simp [bytesToHex, String.data_join]

theorem bytesToHex_data_length (bs : List Byte) :
    (bytesToHex bs).data.length = 2 * bs.length := by
  induction bs with
  | nil => rfl
  | cons b bs ih =>
    rw [bytesToHex_data_cons, List.length_append, ih, byteToHex_data_length]
    simp [List.length_cons]
    ring

theorem hexPairsToBytes_bytesToHex (bs : List Byte) :
    hexPairsToBytes (bytesToHex bs).data = bs := by
  induction bs with
  | nil => rfl
  | cons b bs ih => rw [bytesToHex_data_cons, hexPairsToBytes_byteToHex, ih]

theorem hexToBytes_bytesToHex (bs : List Byte) :
    hexToBytes (bytesToHex bs) = .ok bs := by
  unfold hexToBytes
  rw [if_neg, hexPairsToBytes_bytesToHex]
  rw [string_length_eq_data_length, bytesToHex_data_length]
  omega

theorem pow2_branch_iff {N : Int} (hN32 : N < 2 ^ 32) :
    (N ≤ 0 ∨ jsAnd32 N (N - 1) ≠ 0) ↔ ¬∃ k : ℕ, N = 2 ^ k := by
  by_cases hpos : 1 ≤ N
  · have hb := not_congr (jsAnd32_pow2_iff hpos hN32)
    constructor
    · rintro (h | h)
      · omega
      · exact hb.mp h
    · intro h
      exact Or.inr (hb.mpr h)
  · constructor
    · rintro - ⟨k, hk⟩
      have : (0 : Int) < 2 ^ k := pow_pos (by norm_num) k
      omega
    · intro _
      exact Or.inl (by omega)

theorem validate_ok_N_le (params : ScryptParams)
    (h : validateScryptParams params = .ok ()) : params.N ≤ 2 ^ 24 := by
  unfold validateScryptParams at h
  simp only [SCRYPT_LIMITS] at h
  split_ifs at h with h1 h2 <;> simp_all

theorem validate_characterization (params : ScryptParams) (hN32 : params.N < 2 ^ 32) :
    (validateScryptParams params = .error .nPow2 ↔ ¬∃ k : ℕ, params.N = 2 ^ k) ∧
    (validateScryptParams params = .error .nRange ↔
      (∃ k : ℕ, params.N = 2 ^ k) ∧ (params.N < 2 ^ 10 ∨ params.N > 2 ^ 24)) ∧
    (validateScryptParams params = .error .rRange ↔
      (∃ k : ℕ, params.N = 2 ^ k) ∧ 2 ^ 10 ≤ params.N ∧ params.N ≤ 2 ^ 24 ∧
      (params.r < 1 ∨ params.r > 64)) ∧
    (validateScryptParams params = .error .pRange ↔
      (∃ k : ℕ, params.N = 2 ^ k) ∧ 2 ^ 10 ≤ params.N ∧ params.N ≤ 2 ^ 24 ∧
      1 ≤ params.r ∧ params.r ≤ 64 ∧ (params.p < 1 ∨ params.p > 64)) ∧
    (validateScryptParams params = .error .dkLenRange ↔
      (∃ k : ℕ, params.N = 2 ^ k) ∧ 2 ^ 10 ≤ params.N ∧ params.N ≤ 2 ^ 24 ∧
      1 ≤ params.r ∧ params.r ≤ 64 ∧ 1 ≤ params.p ∧ params.p ≤ 64 ∧
      (params.dkLen < 16 ∨ params.dkLen > 128)) ∧
    (validateScryptParams params = .error .memoryLimit ↔
      (∃ k : ℕ, params.N = 2 ^ k) ∧ 2 ^ 10 ≤ params.N ∧ params.N ≤ 2 ^ 24 ∧
      1 ≤ params.r ∧ params.r ≤ 64 ∧ 1 ≤ params.p ∧ params.p ≤ 64 ∧
      16 ≤ params.dkLen ∧ params.dkLen ≤ 128 ∧
      128 * params.N * params.r > 1024 * 1024 * 1024) ∧
    (validateScryptParams params = .ok () ↔
      (∃ k : ℕ, params.N = 2 ^ k) ∧ 2 ^ 10 ≤ params.N ∧ params.N ≤ 2 ^ 24 ∧
      1 ≤ params.r ∧ params.r ≤ 64 ∧ 1 ≤ params.p ∧ params.p ≤ 64 ∧
      16 ≤ params.dkLen ∧ params.dkLen ≤ 128 ∧
      128 * params.N * params.r ≤ 1024 * 1024 * 1024) := by
  have hp2 := pow2_branch_iff hN32
  unfold validateScryptParams
  simp only [SCRYPT_LIMITS]
  split_ifs with h1 h2 h3 h4 h5 h6 <;>
    (first
      | replace h1 : ∃ k : ℕ, params.N = 2 ^ k := by
          by_contra hne
          exact h1 (hp2.mpr hne)
      | replace h1 := hp2.mp h1) <;>
    refine ⟨?_, ?_, ?_, ?_, ?_, ?_, ?_⟩ <;>
    simp only [reduceCtorEq, Except.error.injEq, Except.ok.injEq, false_iff, true_iff,
      iff_false, iff_true, not_false_eq_true, eq_self_iff_true] <;>
    first
      | exact h1
      | exact not_not_intro h1
      | (refine ⟨h1, ?_⟩ ; omega)
      | omega
      | (rintro ⟨hex, hrest⟩ ; first | exact h1 hex | omega)
      | trivial

theorem int_not_two_pow {N : Int} (j : ℕ) (hlo : 2 ^ j < N) (hhi : N < 2 ^ (j + 1)) :
    ¬∃ k : ℕ, N = 2 ^ k := by
  rintro ⟨k, rfl⟩
  rcases le_or_lt k j with h | h
  · have hle : (2 : ℤ) ^ k ≤ 2 ^ j := pow_le_pow_right₀ (by norm_num) h
    linarith
  · have hle : (2 : ℤ) ^ (j + 1) ≤ 2 ^ k := pow_le_pow_right₀ (by norm_num) h
    linarith

/-- Claim C1 (supporting theorem): the comparison `verifyPassword` actually
performs (native string equality) and the timing-safe comparator the
documentation prescribes agree on every input, so the two verifiers are
extensionally equal: the defect is confined to the timing side channel. -/
theorem C1_verify_comparator_agreement :
    ∀ (scryptAsyncFn : DeriveFn) (generatedSalt : String) (now : Int)
      (password expectedHash salt : String) (params : ScryptParams),
      verifyPassword scryptAsyncFn generatedSalt now password expectedHash salt params =
        verifyPasswordTimingSafe scryptAsyncFn generatedSalt now password expectedHash salt params := by
  intro f gen now pw eh s prm
  unfold verifyPassword verifyPasswordTimingSafe
  cases h : hashPassword f gen now pw (some s) prm with
  | error e => rfl
  | ok result =>
    show Except.ok (result.hash == eh) = Except.ok (timingSafeEqual result.hash eh)
    rw [timingSafeEqual_eq_beq]

/-- Claim C7: for identical inputs the blocking and asynchronous forms produce
identical results (in particular bit-identical hashes), provided the two
external primitives compute the same deterministic function. -/
theorem C7_sync_async_agree :
    ∀ (scryptFn scryptAsyncFn : DeriveFn) (generatedSalt : String) (now : Int)
      (password : String) (salt : Option String) (params : ScryptParams),
      scryptFn = scryptAsyncFn →
        hashPasswordSync scryptFn generatedSalt now password salt params =
          hashPassword scryptAsyncFn generatedSalt now password salt params ∧
        (hashPasswordSync scryptFn generatedSalt now password salt params).map HashResult.hash =
          (hashPassword scryptAsyncFn generatedSalt now password salt params).map HashResult.hash := by
  rintro f g gen now pw s prm rfl
  exact ⟨rfl, rfl⟩

theorem C7_witness :
    trivialDerive = trivialDerive ∧
    hashPasswordSync trivialDerive "ab" 0 "pw" (some "abcd") ⟨2 ^ 16, 8, 1, 32⟩ =
      hashPassword trivialDerive "ab" 0 "pw" (some "abcd") ⟨2 ^ 16, 8, 1, 32⟩ :=
  ⟨rfl, (C7_sync_async_agree trivialDerive trivialDerive "ab" 0 "pw" (some "abcd")
    ⟨2 ^ 16, 8, 1, 32⟩ rfl).1⟩

/-- Claim C10: `clientHashPassword` and `serverHashPassword` both return
exactly the `hash` field of `hashPassword` on the same inputs, hence compute
the same function. -/
theorem C10_client_server_same :
    ∀ (scryptAsyncFn : DeriveFn) (generatedSalt : String) (now : Int)
      (x salt : String) (params : ScryptParams),
      clientHashPassword scryptAsyncFn generatedSalt now x salt params =
        (hashPassword scryptAsyncFn generatedSalt now x (some salt) params).map HashResult.hash ∧
      serverHashPassword scryptAsyncFn generatedSalt now x salt params =
        (hashPassword scryptAsyncFn generatedSalt now x (some salt) params).map HashResult.hash ∧
      serverHashPassword scryptAsyncFn generatedSalt now x salt params =
        clientHashPassword scryptAsyncFn generatedSalt now x salt params := by
  intro f gen now x s prm
  exact ⟨rfl, rfl, rfl⟩

/-- Claim C8: hex encode/decode round trip, including the empty sequence;
`bytesToHex` maps the empty sequence to the empty string and renders every
byte as exactly two lowercase hex digits. -/
theorem C8_hex_round_trip :
    (∀ bytes : List Byte, hexToBytes (bytesToHex bytes) = .ok bytes) ∧
    bytesToHex [] = "" ∧
    (∀ b : Byte, (byteToHex b).data.length = 2 ∧
      (byteToHex b).data.all
        (fun c => ('0' ≤ c && c ≤ '9') || ('a' ≤ c && c ≤ 'f')) = true) := by
  refine ⟨hexToBytes_bytesToHex, rfl, ?_⟩
  set_option maxRecDepth 10000 in decide

/-- Claim C6: every preset passes validation, and the paranoid preset sits
exactly at the 1 GiB memory ceiling. -/
theorem C6_presets_valid :
    (∀ level : SecurityLevel, validateScryptParams (SCRYPT_PRESETS level) = .ok ()) ∧
    128 * (SCRYPT_PRESETS .paranoid).N * (SCRYPT_PRESETS .paranoid).r = 1024 * 1024 * 1024 := by
  refine ⟨fun level => ?_, by decide⟩
  cases level <;> (set_option maxRecDepth 10000 in decide)

/-- Claim C9: the implemented estimate equals the spec formula on every
parameter set, and the standard preset estimates exactly 200 ms. -/
theorem C9_estimate_formula :
    (∀ params : ScryptParams, estimateHashingTime params = estimateHashingTimeFormula params) ∧
    estimateHashingTime (SCRYPT_PRESETS .standard) = 200 := by
  constructor
  · intro params
    rfl
  · norm_num [estimateHashingTime, SCRYPT_PRESETS]

/-- Claim C2: `verifyPassword` propagates validation and encoding failures of
the recomputation, and returns `ok false` exactly when the recomputation
succeeded and the fresh hash differs from `expectedHash`. -/
theorem C2_verify_error_propagation :
    ∀ (scryptAsyncFn : DeriveFn) (generatedSalt : String) (now : Int)
      (password expectedHash salt : String) (params : ScryptParams),
      (∀ e, validateScryptParams params = .error e →
        verifyPassword scryptAsyncFn generatedSalt now password expectedHash salt params =
          .error (.validation e)) ∧
      (∀ e, validateScryptParams params = .ok () → salt ≠ "" → hexToBytes salt = .error e →
        verifyPassword scryptAsyncFn generatedSalt now password expectedHash salt params =
          .error (.encoding e)) ∧
      (verifyPassword scryptAsyncFn generatedSalt now password expectedHash salt params =
          .ok false ↔
        ∃ result, hashPassword scryptAsyncFn generatedSalt now password (some salt) params =
            .ok result ∧ result.hash ≠ expectedHash) := by
  intro f gen now pw eh s prm
  refine ⟨?_, ?_, ?_⟩
  · intro e he
    unfold verifyPassword hashPassword
    rw [he]
  · intro e hv hs he
    unfold verifyPassword hashPassword
    rw [hv]
    simp only [if_neg hs, he]
  · unfold verifyPassword
    cases h : hashPassword f gen now pw (some s) prm with
    | error e =>
      simp
    | ok result =>
      simp only [Except.ok.injEq]
      constructor
      · intro hfalse
        exact ⟨result, rfl, by simpa [beq_eq_false_iff_ne] using hfalse⟩
      · rintro ⟨r, hr, hne⟩
        cases hr
        simpa [beq_eq_false_iff_ne] using hne

theorem C2_witness :
    verifyPassword trivialDerive "ab" 0 "pw" "00" "abcd" ⟨1000, 8, 1, 32⟩ =
      .error (.validation .nPow2) ∧
    verifyPassword trivialDerive "ab" 0 "pw" "00" "abc" ⟨2 ^ 16, 8, 1, 32⟩ =
      .error (.encoding .oddLength) ∧
    verifyPassword trivialDerive "ab" 0 "pw" "00" "abcd" ⟨2 ^ 16, 8, 1, 32⟩ = .ok false := by
  refine ⟨?_, ?_, ?_⟩
  · exact (C2_verify_error_propagation trivialDerive "ab" 0 "pw" "00" "abcd"
      ⟨1000, 8, 1, 32⟩).1 .nPow2 (by decide)
  · exact (C2_verify_error_propagation trivialDerive "ab" 0 "pw" "00" "abc"
      ⟨2 ^ 16, 8, 1, 32⟩).2.1 .oddLength (by decide) (by decide) (by decide)
  · exact (C2_verify_error_propagation trivialDerive "ab" 0 "pw" "00" "abcd"
      ⟨2 ^ 16, 8, 1, 32⟩).2.2.mpr
      ⟨⟨"", "abcd", ⟨2 ^ 16, 8, 1, 32⟩, 0⟩, by decide, by decide⟩

theorem C4_counterexample :
    isRadix16Digit 'z' = false ∧ hexToBytes "zz" = .ok [(⟨0, by omega⟩ : Byte)] := by
  constructor
  · rfl
  · rfl

/-- Claim C4 (amended): `hexToBytes` raises the distinct odd-length error on
every odd-length input, and never raises on an even-length input — even one
containing non-hex characters (such pairs are decoded by `parseInt`
semantics, a fully non-hex pair coercing to the byte 0). -/
theorem C4_hexToBytes_amended :
    ∀ hex : String,
      (hex.length % 2 ≠ 0 → hexToBytes hex = .error .oddLength) ∧
      (hex.length % 2 = 0 → ∃ bytes, hexToBytes hex = .ok bytes) := by
  intro hex
  constructor
  · intro h
    unfold hexToBytes
    rw [if_pos h]
  · intro h
    unfold hexToBytes
    rw [if_neg (by omega)]
    exact ⟨_, rfl⟩

theorem C4_witness :
    hexToBytes "abc" = .error .oddLength ∧ hexToBytes "00" = .ok [(⟨0, by omega⟩ : Byte)] :=
  ⟨(C4_hexToBytes_amended "abc").1 (by decide), rfl⟩

theorem C5_counterexample :
    (hashPasswordSync trivialDerive "ab" 0 "pw" (some "") DEFAULT_SCRYPT_PARAMS).map
        HashResult.salt = .ok "ab" ∧
    ("ab" : String) ≠ "" := by
  exact ⟨rfl, by decide⟩

/-- Claim C5 (amended): a caller-supplied *nonempty* salt is used verbatim by
both hashing forms — the result's `salt` field is the supplied string and the
bytes handed to the derivation primitive are its hex decoding — while an
absent salt (and, per JS falsiness, an empty-string salt) selects the freshly
generated one. -/
theorem C5_salt_handling :
    ∀ (drv : DeriveFn) (generatedSalt : String) (now : Int) (password s : String)
      (params : ScryptParams) (saltBytes : List Byte),
      (s ≠ "" → validateScryptParams params = .ok () → hexToBytes s = .ok saltBytes →
        hashPasswordSync drv generatedSalt now password (some s) params =
          .ok ⟨bytesToHex (drv password saltBytes params), s, params, now⟩ ∧
        hashPassword drv generatedSalt now password (some s) params =
          .ok ⟨bytesToHex (drv password saltBytes params), s, params, now⟩) ∧
      (validateScryptParams params = .ok () → hexToBytes generatedSalt = .ok saltBytes →
        hashPasswordSync drv generatedSalt now password none params =
          .ok ⟨bytesToHex (drv password saltBytes params), generatedSalt, params, now⟩ ∧
        hashPassword drv generatedSalt now password none params =
          .ok ⟨bytesToHex (drv password saltBytes params), generatedSalt, params, now⟩) := by
  intro drv gen now pw s prm bs
  constructor
  · intro hs hv he
    unfold hashPasswordSync hashPassword
    rw [hv]
    simp only [if_neg hs, he]
    exact ⟨trivial, trivial⟩
  · intro hv he
    unfold hashPasswordSync hashPassword
    rw [hv]
    simp only [he]
    exact ⟨trivial, trivial⟩

theorem C5_witness :
    hashPasswordSync trivialDerive "00" 7 "pw" (some "abcd") ⟨2 ^ 16, 8, 1, 32⟩ =
      .ok ⟨"", "abcd", ⟨2 ^ 16, 8, 1, 32⟩, 7⟩ :=
  ((C5_salt_handling trivialDerive "00" 7 "pw" "abcd" ⟨2 ^ 16, 8, 1, 32⟩
    [⟨171, by omega⟩, ⟨205, by omega⟩]).1 (by decide) (by decide) (by decide)).1

theorem C3_counterexample :
    (¬∃ k : ℕ, ((⟨3 * 2 ^ 32, 8, 1, 32⟩ : ScryptParams).N = 2 ^ k)) ∧
    validateScryptParams ⟨3 * 2 ^ 32, 8, 1, 32⟩ = .error .nRange := by
  constructor
  · exact int_not_two_pow 33 (by norm_num) (by norm_num)
  · decide

/-- Claim C3 (amended): `validateScryptParams` succeeds exactly when `N` is a
positive power of two within `[2^10, 2^24]`, `r` and `p` lie in `[1, 64]`,
`dkLen` lies in `[16, 128]`, and `128*N*r ≤ 1 GiB`; for every parameter set
with `N < 2^32` the failure raised is the one of the first violated check in
that order (one distinct error per check); and `N = 2^24` with `r = 64`
fails the memory check. -/
theorem C3_validate_checks :
    (∀ params : ScryptParams,
      validateScryptParams params = .ok () ↔
        (∃ k : ℕ, params.N = 2 ^ k) ∧ 2 ^ 10 ≤ params.N ∧ params.N ≤ 2 ^ 24 ∧
        1 ≤ params.r ∧ params.r ≤ 64 ∧ 1 ≤ params.p ∧ params.p ≤ 64 ∧
        16 ≤ params.dkLen ∧ params.dkLen ≤ 128 ∧
        128 * params.N * params.r ≤ 1024 * 1024 * 1024) ∧
    (∀ params : ScryptParams, params.N < 2 ^ 32 →
      (validateScryptParams params = .error .nPow2 ↔ ¬∃ k : ℕ, params.N = 2 ^ k) ∧
      (validateScryptParams params = .error .nRange ↔
        (∃ k : ℕ, params.N = 2 ^ k) ∧ (params.N < 2 ^ 10 ∨ params.N > 2 ^ 24)) ∧
      (validateScryptParams params = .error .rRange ↔
        (∃ k : ℕ, params.N = 2 ^ k) ∧ 2 ^ 10 ≤ params.N ∧ params.N ≤ 2 ^ 24 ∧
        (params.r < 1 ∨ params.r > 64)) ∧
      (validateScryptParams params = .error .pRange ↔
        (∃ k : ℕ, params.N = 2 ^ k) ∧ 2 ^ 10 ≤ params.N ∧ params.N ≤ 2 ^ 24 ∧
        1 ≤ params.r ∧ params.r ≤ 64 ∧ (params.p < 1 ∨ params.p > 64)) ∧
      (validateScryptParams params = .error .dkLenRange ↔
        (∃ k : ℕ, params.N = 2 ^ k) ∧ 2 ^ 10 ≤ params.N ∧ params.N ≤ 2 ^ 24 ∧
        1 ≤ params.r ∧ params.r ≤ 64 ∧ 1 ≤ params.p ∧ params.p ≤ 64 ∧
        (params.dkLen < 16 ∨ params.dkLen > 128)) ∧
      (validateScryptParams params = .error .memoryLimit ↔
        (∃ k : ℕ, params.N = 2 ^ k) ∧ 2 ^ 10 ≤ params.N ∧ params.N ≤ 2 ^ 24 ∧
        1 ≤ params.r ∧ params.r ≤ 64 ∧ 1 ≤ params.p ∧ params.p ≤ 64 ∧
        16 ≤ params.dkLen ∧ params.dkLen ≤ 128 ∧
        128 * params.N * params.r > 1024 * 1024 * 1024)) ∧
    validateScryptParams ⟨2 ^ 24, 64, 1, 32⟩ = .error .memoryLimit := by
  refine ⟨?_, ?_, ?_⟩
  · intro params
    constructor
    · intro h
      have hle := validate_ok_N_le params h
      exact ((validate_characterization params (by omega)).2.2.2.2.2.2).mp h
    · intro hcond
      have h24 : params.N ≤ 2 ^ 24 := hcond.2.2.1
      exact ((validate_characterization params (by omega)).2.2.2.2.2.2).mpr hcond
  · intro params hN32
    have hc := validate_characterization params hN32
    exact ⟨hc.1, hc.2.1, hc.2.2.1, hc.2.2.2.1, hc.2.2.2.2.1, hc.2.2.2.2.2.1⟩
  · decide

theorem C3_witness :
    validateScryptParams ⟨1024, 8, 1, 32⟩ = .ok () ∧
    validateScryptParams ⟨1000, 8, 1, 32⟩ = .error .nPow2 ∧
    validateScryptParams ⟨2048, 0, 1, 32⟩ = .error .rRange := by
  refine ⟨?_, ?_, ?_⟩
  · exact (C3_validate_checks.1 ⟨1024, 8, 1, 32⟩).mpr
      ⟨⟨10, by norm_num⟩, by norm_num, by norm_num, by norm_num, by norm_num,
        by norm_num, by norm_num, by norm_num, by norm_num, by norm_num⟩
  · exact ((C3_validate_checks.2.1 ⟨1000, 8, 1, 32⟩ (by norm_num)).1).mpr
      (int_not_two_pow 9 (by norm_num) (by norm_num))
  · exact ((C3_validate_checks.2.1 ⟨2048, 0, 1, 32⟩ (by norm_num)).2.2.1).mpr
      ⟨⟨11, by norm_num⟩, by norm_num, by norm_num, by norm_num⟩
